import Mathlib

/-!
Shallow embedding of the changelog builder and version validation of
`release_new_version.py` (repository Holland-Mechanics/gitManuals).

The script shells out to `git`; the version-control system is the external
collaborator (spec §6).  We model the collaborator's responses explicitly:

* `Collab.history` — the linear commit history of the repository, oldest
  first; each commit has a subject line (`%s`) and a merge flag.
* `Collab.pos` — the index in `history` of the commit a tag points to.
  `git log <b>` prints (newest first) the subjects of the commits reachable
  from `b`, i.e. indices `0 .. pos b`; `git log <a>..<b>` prints those
  reachable from `b` but not from `a`, i.e. indices `pos a + 1 .. pos b`
  for a linear history.  `--no-merges` drops commits with the merge flag.
* `Collab.tagLines` — the stdout lines of `git tag --sort=-creatordate`.
* `Collab.dateRaw` — the stdout of `git log -1 --format=%ad --date=short <tag>`.

`datetime.utcnow().strftime("%Y-%m-%d")` is ambient in the script; it is
passed to the builder as the explicit parameter `today`.
-/

/-- A commit of the collaborator's linear history: subject line and merge flag. -/
structure Commit where
  message : String
  isMerge : Bool

/-- The collaborator (git) responses consumed by the script. -/
structure Collab where
  history : List Commit
  pos : String → Nat
  tagLines : List String
  dateRaw : String → String

/-- Python `str.strip()` on the character list: drop leading and trailing
whitespace. -/
def stripChars (l : List Char) : List Char :=
  ((l.dropWhile Char.isWhitespace).reverse.dropWhile Char.isWhitespace).reverse

/-- Python `str.strip()` (whitespace on both ends). -/
def pyStrip (s : String) : String :=
  String.mk (stripChars s.data)

/-- The Python idiom `[ln.strip() for ln in lines if ln.strip()]`: strip every
line and keep only the non-blank ones. -/
def pyLines (lines : List String) : List String :=
  (lines.map pyStrip).filter (fun l => !l.isEmpty)

/-- One literal character of the regex: consume `c` from the front of the
input and return the rest, else fail. -/
def expectChar (c : Char) (l : List Char) : Option (List Char) :=
  match l with
  | x :: rest => if x = c then some rest else none
  | [] => none

/-- The code-point ranges of the Unicode decimal digits (category `Nd`,
Unicode 14.0.0): exactly the characters Python's `\d` matches in a `str`
pattern without `re.ASCII`, enumerated from the CPython 3.11 `re` engine. -/
def ndRanges : List (Nat × Nat) := [
    (0x30, 0x39), (0x660, 0x669), (0x6F0, 0x6F9), (0x7C0, 0x7C9),
    (0x966, 0x96F), (0x9E6, 0x9EF), (0xA66, 0xA6F), (0xAE6, 0xAEF),
    (0xB66, 0xB6F), (0xBE6, 0xBEF), (0xC66, 0xC6F), (0xCE6, 0xCEF),
    (0xD66, 0xD6F), (0xDE6, 0xDEF), (0xE50, 0xE59), (0xED0, 0xED9),
    (0xF20, 0xF29), (0x1040, 0x1049), (0x1090, 0x1099), (0x17E0, 0x17E9),
    (0x1810, 0x1819), (0x1946, 0x194F), (0x19D0, 0x19D9), (0x1A80, 0x1A89),
    (0x1A90, 0x1A99), (0x1B50, 0x1B59), (0x1BB0, 0x1BB9), (0x1C40, 0x1C49),
    (0x1C50, 0x1C59), (0xA620, 0xA629), (0xA8D0, 0xA8D9), (0xA900, 0xA909),
    (0xA9D0, 0xA9D9), (0xA9F0, 0xA9F9), (0xAA50, 0xAA59), (0xABF0, 0xABF9),
    (0xFF10, 0xFF19), (0x104A0, 0x104A9), (0x10D30, 0x10D39), (0x11066, 0x1106F),
    (0x110F0, 0x110F9), (0x11136, 0x1113F), (0x111D0, 0x111D9), (0x112F0, 0x112F9),
    (0x11450, 0x11459), (0x114D0, 0x114D9), (0x11650, 0x11659), (0x116C0, 0x116C9),
    (0x11730, 0x11739), (0x118E0, 0x118E9), (0x11950, 0x11959), (0x11C50, 0x11C59),
    (0x11D50, 0x11D59), (0x11DA0, 0x11DA9), (0x16A60, 0x16A69), (0x16AC0, 0x16AC9),
    (0x16B50, 0x16B59), (0x1D7CE, 0x1D7FF), (0x1E140, 0x1E149), (0x1E2F0, 0x1E2F9),
    (0x1E950, 0x1E959), (0x1FBF0, 0x1FBF9)]

/-- Python's `\d` on a single character: any Unicode decimal digit (category
`Nd`), not only ASCII `0-9`. -/
def isReDigit (c : Char) : Bool :=
  ndRanges.any (fun p => p.1 ≤ c.toNat && c.toNat ≤ p.2)

/-- One-or-more digits (`\d+`, greedy): if the input starts with a Unicode
decimal digit, consume the maximal digit run and return the rest, else fail.
Greedy matching is exact here because the regex continues with a non-digit
(`\.` or `$`). -/
def reDigits1 (l : List Char) : Option (List Char) :=
  match l with
  | c :: rest => if isReDigit c then some (rest.dropWhile isReDigit) else none
  | [] => none

/-- The anchor `$` of Python `re`: it matches at the end of the string or just
before a single newline at the end of the string, so the unconsumed rest must
be `""` or `"\n"`. -/
def reEnd (l : List Char) : Bool :=
  l.isEmpty || l == ['\n']

/-- `re.match` of `SEMVER_TAG_RE = re.compile(r"^v\d+\.\d+\.\d+$")` on the
character list, as the atom sequence `v`, `\d+`, `\.`, `\d+`, `\.`, `\d+`,
`$`. -/
def semverCore (l : List Char) : Bool :=
  match (((((expectChar 'v' l).bind reDigits1).bind (expectChar '.')).bind
      reDigits1).bind (expectChar '.')).bind reDigits1 with
  | some r => reEnd r
  | none => false

/-- `SEMVER_TAG_RE.match(s)` viewed as a Boolean. -/
def semverMatch (s : String) : Bool :=
  semverCore s.data

/-- `validate_version`: return normally iff the tag matches `SEMVER_TAG_RE`,
otherwise raise `SystemExit` with the fixed message (modelled as `Except`). -/
def validate_version (tag : String) : Except String Unit :=
  if semverMatch tag then Except.ok ()
  else Except.error "ERROR: Version must match syntax v1.2.3"

/-- `git_tag_list_sorted_desc`: strip the stdout lines of
`git tag --sort=-creatordate`, drop blanks, and keep only the tags matching
`SEMVER_TAG_RE`. -/
def git_tag_list_sorted_desc (c : Collab) : List String :=
  (pyLines c.tagLines).filter semverMatch

/-- `tag_date`: the stripped stdout of
`git log -1 --format=%ad --date=short <tag>`. -/
def tag_date (c : Collab) (tag : String) : String :=
  pyStrip (c.dateRaw tag)

/-- The lower history index of the interval queried by `commits_between`:
`0` for the full history (`rev = b`), `pos a + 1` for `rev = a..b`. -/
def prevBound (c : Collab) (a : Option String) : Nat :=
  match a with
  | none => 0
  | some t => c.pos t + 1

/-- The stdout lines of `git log --no-merges --pretty=format:%s <rev>` for the
modelled linear history: the commits with index in
`[prevBound a, pos b]`, without merges, newest first. -/
def gitLogRaw (c : Collab) (a : Option String) (b : String) : List String :=
  ((((c.history.drop (prevBound c a)).take (c.pos b + 1 - prevBound c a)).filter
      (fun cm => !cm.isMerge)).reverse).map Commit.message

/-- `commits_between`: run the log for `b` (when `a` is `None`) or `a..b`,
then strip each line and drop the blank ones. -/
def commits_between (c : Collab) (a_excl : Option String) (b_incl : String) : List String :=
  pyLines (gitLogRaw c a_excl b_incl)

/-- The list `sec` built for the tag at position `idx` of `tags` inside the
loop of `build_changelog`: the header `## <tag> — <date>` followed by one
`- <message>` line per message.  `prev_tag` is `tags[idx + 1]` when that
index exists, else `None`; an empty `tag_date` falls back to `today`
(Python `tag_date(tag) or datetime.utcnow().strftime("%Y-%m-%d")`). -/
def sectionLines (c : Collab) (today : String) (tags : List String) (idx : Nat) : List String :=
  let tag := tags.getD idx ""
  let messages := commits_between c tags[idx + 1]? tag
  let date := if tag_date c tag = "" then today else tag_date c tag
  ("## " ++ tag ++ " — " ++ date) :: messages.map (fun m => "- " ++ m)

/-- One section string: `"\n".join(sec)`. -/
def buildSection (c : Collab) (today : String) (tags : List String) (idx : Nat) : String :=
  String.intercalate "\n" (sectionLines c today tags idx)

/-- The `sections` list of `build_changelog`, one entry per tag, in list
order (the Python `for idx, tag in enumerate(tags)` loop). -/
def changelogSections (c : Collab) (today : String) : List String :=
  let tags := git_tag_list_sorted_desc c
  (List.range tags.length).map (fun idx => buildSection c today tags idx)

/-- `build_changelog`: placeholder for an empty tag list, otherwise the
sections joined by a blank line, with a final newline. -/
def build_changelog (c : Collab) (today : String) : String :=
  if git_tag_list_sorted_desc c = [] then "No tags found.\n"
  else String.intercalate "\n\n" (changelogSections c today) ++ "\n"

/-! ### Specification-side definitions

These restate, in independent terms, what the spec says the code computes;
the claim theorems connect them to the embedded code above. -/

/-- The history indices of the interval queried for `(a_excl, b_incl]`:
`prevBound c a ≤ j ≤ c.pos b`, as an ordered list. -/
def intervalIdx (c : Collab) (a : Option String) (b : String) : List Nat :=
  List.range' (prevBound c a) (c.pos b + 1 - prevBound c a)

/-- The raw log lines of the interval `(a_excl, b_incl]` described by index
selection: the non-merge commits whose history index lies in
`intervalIdx c a b`, newest first. -/
def intervalRaw (c : Collab) (a : Option String) (b : String) : List String :=
  ((((intervalIdx c a b).filterMap (fun j => c.history[j]?)).filter
      (fun cm => !cm.isMerge)).reverse).map Commit.message

/-- The shape `v<c1>.<c2>.<c3>` with three non-empty components whose
characters all satisfy the digit predicate `d`, and nothing else. -/
def SemverShapeD (d : Char → Bool) (s : String) : Prop :=
  ∃ x y z : String, x ≠ "" ∧ y ≠ "" ∧ z ≠ "" ∧
    (∀ ch ∈ x.data, d ch = true) ∧
    (∀ ch ∈ y.data, d ch = true) ∧
    (∀ ch ∈ z.data, d ch = true) ∧
    s = "v" ++ x ++ "." ++ y ++ "." ++ z

/-- The same parametric shape on character lists. -/
def SemverCharsD (d : Char → Bool) (l : List Char) : Prop :=
  ∃ x y z : List Char, x ≠ [] ∧ y ≠ [] ∧ z ≠ [] ∧
    (∀ ch ∈ x, d ch = true) ∧
    (∀ ch ∈ y, d ch = true) ∧
    (∀ ch ∈ z, d ch = true) ∧
    l = 'v' :: (x ++ '.' :: (y ++ '.' :: z))

/-- The semantic-version shape named by the spec: exactly
`v<major>.<minor>.<patch>` with non-empty ASCII `0-9` components (non-negative
integers) and nothing else. -/
def SemverShapeCore : String → Prop := SemverShapeD Char.isDigit

/-- The shape `SEMVER_TAG_RE` actually accepts (modulo the `$` trailing
newline): components are non-empty runs of Unicode decimal digits, `\d`'s
true character class. -/
def SemverShapeRe : String → Prop := SemverShapeD isReDigit

/-! ### Concrete collaborator instances used as test inputs -/

/-- The collaborator of the spec's worked example: tags `v2.0.0`, `v1.0.0`
(descending), `commit_messages_between(None, v1.0.0) = ["init"]` and
`commit_messages_between(v1.0.0, v2.0.0) = ["feature A", "fix B"]` (git log
prints newest first, so `feature A` is the newest commit). -/
def c3collab : Collab :=
  { history := [⟨"init", false⟩, ⟨"fix B", false⟩, ⟨"feature A", false⟩]
    pos := fun t => if t = "v1.0.0" then 0 else 2
    tagLines := ["v2.0.0", "v1.0.0"]
    dateRaw := fun t => if t = "v1.0.0" then "2024-01-05" else "2024-02-06" }

/-- A collaborator that reports no creation date for any tag. -/
def collabNoDate : Collab :=
  { history := [⟨"init", false⟩]
    pos := fun _ => 0
    tagLines := ["v1.0.0"]
    dateRaw := fun _ => "" }

/-- A collaborator with no tags at all. -/
def collabEmpty : Collab :=
  { history := []
    pos := fun _ => 0
    tagLines := []
    dateRaw := fun _ => "" }

/-- A misconfigured collaborator whose raw tag list contains lines that do
not match the semantic-version pattern. -/
def collabJunk : Collab :=
  { history := [⟨"init", false⟩]
    pos := fun _ => 0
    tagLines := ["v1.0.0", "release-2", "   ", "v2", "v1.2.3.4"]
    dateRaw := fun _ => "2024-03-03" }

/-- A collaborator whose log lines carry surrounding whitespace and a
whitespace-only subject. -/
def collabBlankMsg : Collab :=
  { history := [⟨"   ", false⟩, ⟨"  Fix B  ", false⟩]
    pos := fun _ => 1
    tagLines := ["v1.0.0"]
    dateRaw := fun _ => "2024-03-03" }

/-- A collaborator whose interval carries only blank or merge subjects, so a
section has no bullet lines. -/
def collabAllBlank : Collab :=
  { history := [⟨" ", false⟩, ⟨"merged", true⟩]
    pos := fun _ => 1
    tagLines := ["v1.0.0"]
    dateRaw := fun _ => "2024-03-03" }

/-- A collaborator whose raw tag list contains a tag written with
Arabic-Indic digits: `SEMVER_TAG_RE` accepts it (Python `\d` is Unicode),
though it is outside the ASCII `v<major>.<minor>.<patch>` shape. -/
def collabUnicode : Collab :=
  { history := [⟨"init", false⟩]
    pos := fun _ => 0
    tagLines := ["v١.٢.٣"]
    dateRaw := fun _ => "2024-04-04" }

example : semverMatch "v1.0.0" = true := by decide
example : semverMatch "v1.2.3\n" = true := by decide
example : semverMatch "release-1" = false := by decide
example : semverMatch "v1.2" = false := by decide
example : semverMatch "v١.٢.٣" = true := by decide
example : semverMatch "v１.２.３" = true := by decide
example : semverMatch "v1.2.३" = true := by decide
example : semverMatch "v1.2.3\n\n" = false := by decide

/-! ### Helper lemmas on strings and lists -/

theorem intercalate_go_append (sep : String) :
    ∀ (t : List String) (x y : String),
      String.intercalate.go (x ++ y) sep t = x ++ String.intercalate.go y sep t := by
  intro t
  induction t with
  | nil => intro x y; simp [String.intercalate.go]
  | cons a as ih =>
    intro x y
    simp only [String.intercalate.go]
    rw [String.append_assoc, String.append_assoc, ih, String.append_assoc y sep a]

theorem intercalate_cons2 (sep a b : String) (t : List String) :
    String.intercalate sep (a :: b :: t) = a ++ sep ++ String.intercalate sep (b :: t) := by
  show String.intercalate.go a sep (b :: t) = a ++ sep ++ String.intercalate.go b sep t
  simp only [String.intercalate.go]
  rw [(by simp : a ++ sep ++ b = (a ++ sep) ++ b)]
  rw [intercalate_go_append sep t (a ++ sep) b]

theorem intercalate_singleton (sep a : String) : String.intercalate sep [a] = a := rfl

theorem list_intercalate_cons2 {α : Type} (sep : List α) (a b : List α) (t : List (List α)) :
    List.intercalate sep (a :: b :: t) = a ++ sep ++ List.intercalate sep (b :: t) := by
  simp [List.intercalate, List.intersperse, List.append_assoc]

theorem list_intercalate_singleton {α : Type} (sep : List α) (a : List α) :
    List.intercalate sep [a] = a := by
  simp [List.intercalate, List.intersperse]

theorem list_intercalate_ne_nil {α : Type} (sep : List α) (a : List α)
    (t : List (List α)) (ha : a ≠ []) : List.intercalate sep (a :: t) ≠ [] := by
  cases t with
  | nil => rw [list_intercalate_singleton]; exact ha
  | cons b t' =>
    rw [list_intercalate_cons2]
    intro h
    rcases List.append_eq_nil.mp (List.append_eq_nil.mp h).1 with ⟨h1, _⟩
    exact ha h1

theorem intercalate_append_of_ne_nil (sep : String) :
    ∀ (l r : List String), l ≠ [] → r ≠ [] →
      String.intercalate sep (l ++ r) =
        String.intercalate sep l ++ sep ++ String.intercalate sep r := by
  intro l
  induction l with
  | nil => intro r h; exact absurd rfl h
  | cons a l' ih =>
    intro r _ hr
    cases l' with
    | nil =>
      cases r with
      | nil => exact absurd rfl hr
      | cons b t => simpa [intercalate_singleton] using intercalate_cons2 sep a b t
    | cons a2 l'' =>
      rw [List.cons_append, List.cons_append, intercalate_cons2,
        ← List.cons_append, ih r (by simp) hr, intercalate_cons2]
      simp [String.append_assoc]

theorem intercalate_blank_join :
    ∀ (ls : List (List String)), (∀ l ∈ ls, l ≠ []) →
      String.intercalate "\n\n" (ls.map (String.intercalate "\n")) =
        String.intercalate "\n" (List.intercalate [""] ls) := by
  intro ls
  induction ls with
  | nil => intro _; rfl
  | cons l ls' ih =>
    intro h
    cases ls' with
    | nil => simp [intercalate_singleton, list_intercalate_singleton]
    | cons l2 t =>
      have hl : l ≠ [] := h l (by simp)
      have hl2 : l2 ≠ [] := h l2 (by simp)
      have hrest : List.intercalate [""] (l2 :: t) ≠ [] :=
        list_intercalate_ne_nil [""] l2 t hl2
      simp only [List.map_cons]
      rw [intercalate_cons2, ← List.map_cons, ih (fun x hx => h x (by simp [hx])),
        list_intercalate_cons2]
      rw [(by simp : l ++ [""] ++ List.intercalate [""] (l2 :: t) =
        l ++ ([""] ++ List.intercalate [""] (l2 :: t)))]
      rw [intercalate_append_of_ne_nil "\n" l ([""] ++ List.intercalate [""] (l2 :: t)) hl
        (by simp)]
      cases hr : List.intercalate [""] (l2 :: t) with
      | nil => exact absurd hr hrest
      | cons y ys =>
        rw [List.singleton_append, intercalate_cons2]
        rw [(by rfl : ("" : String) ++ "\n" = "\n")]
        simp [String.append_assoc]
        rfl

theorem filterMap_getElem_range' {α : Type} (l : List α) :
    ∀ (k lo : Nat), (List.range' lo k).filterMap (fun j => l[j]?) = (l.drop lo).take k := by
  intro k
  induction k with
  | zero => simp
  | succ k ih =>
    intro lo
    rw [List.range'_succ, List.filterMap_cons]
    cases h : l[lo]? with
    | none =>
      have hlen : l.length ≤ lo := List.getElem?_eq_none_iff.mp h
      have h1 : l.drop lo = [] := List.drop_eq_nil_of_le hlen
      have h2 : l.drop (lo + 1) = [] :=
        List.drop_eq_nil_of_le (Nat.le_trans hlen (Nat.le_succ lo))
      simp [ih, h1, h2]
    | some a =>
      have hlt : lo < l.length := (List.getElem?_eq_some.mp h).1
      rw [List.drop_eq_getElem_cons hlt]
      have ha : l[lo] = a := (List.getElem?_eq_some.mp h).2
      simp [ih, ha]

theorem drop_take_split {α : Type} (l : List α) (a m b : Nat) (ham : a ≤ m) (hmb : m ≤ b) :
    (l.drop a).take (b - a) = (l.drop a).take (m - a) ++ (l.drop m).take (b - m) := by
  have hsum : b - a = (m - a) + (b - m) := by omega
  rw [hsum, List.take_add, List.drop_drop]
  have : a + (m - a) = m := by omega
  rw [this]

theorem pyLines_append (x y : List String) :
    pyLines (x ++ y) = pyLines x ++ pyLines y := by
  simp [pyLines]

theorem not_of_head?_dropWhile {α : Type} (p : α → Bool) :
    ∀ (l : List α) (a : α), (l.dropWhile p).head? = some a → p a = false := by
  intro l
  induction l with
  | nil => intro a h; simp [List.dropWhile] at h
  | cons x xs ih =>
    intro a h
    rw [List.dropWhile_cons] at h
    by_cases hx : p x = true
    · rw [if_pos hx] at h; exact ih a h
    · rw [if_neg hx] at h
      have hxa : x = a := by simpa using h
      subst hxa
      simpa using hx

theorem dropWhile_eq_self_of_head? {α : Type} (p : α → Bool) (l : List α)
    (h : ∀ a, l.head? = some a → p a = false) : l.dropWhile p = l := by
  cases l with
  | nil => rfl
  | cons x xs => rw [List.dropWhile_cons, if_neg (by simp [h x rfl])]

theorem dropWhile_isSuffix {α : Type} (p : α → Bool) (l : List α) : l.dropWhile p <:+ l := by
  induction l with
  | nil => exact List.suffix_refl []
  | cons x xs ih =>
    rw [List.dropWhile_cons]
    by_cases hx : p x = true
    · rw [if_pos hx]; exact ih.trans (List.suffix_cons x xs)
    · rw [if_neg hx]

theorem getLast?_of_isSuffix {α : Type} {l₁ l₂ : List α} (h : l₁ <:+ l₂) (hne : l₁ ≠ []) :
    l₂.getLast? = l₁.getLast? := by
  rcases h with ⟨t, rfl⟩
  rw [List.getLast?_append]
  cases hl : l₁.getLast? with
  | none => exact absurd (List.getLast?_eq_none_iff.mp hl) hne
  | some a => simp

theorem stripChars_head? (l : List Char) :
    ∀ a, (stripChars l).head? = some a → a.isWhitespace = false := by
  intro a h
  unfold stripChars at h
  rw [List.head?_reverse] at h
  set u := l.dropWhile Char.isWhitespace with hu
  set v := u.reverse.dropWhile Char.isWhitespace with hv
  have hvne : v ≠ [] := by
    intro he
    rw [he] at h
    simp at h
  have hsuf : v <:+ u.reverse := dropWhile_isSuffix _ _
  have h2 : u.reverse.getLast? = v.getLast? := getLast?_of_isSuffix hsuf hvne
  rw [← h2, List.getLast?_reverse] at h
  exact not_of_head?_dropWhile _ l a h

theorem stripChars_getLast? (l : List Char) :
    ∀ a, (stripChars l).getLast? = some a → a.isWhitespace = false := by
  intro a h
  unfold stripChars at h
  rw [List.getLast?_reverse] at h
  exact not_of_head?_dropWhile _ _ a h

theorem stripChars_eq_self (l : List Char)
    (h1 : ∀ a, l.head? = some a → a.isWhitespace = false)
    (h2 : ∀ a, l.getLast? = some a → a.isWhitespace = false) :
    stripChars l = l := by
  unfold stripChars
  rw [dropWhile_eq_self_of_head? _ _ h1]
  rw [dropWhile_eq_self_of_head? _ _ (fun a ha => h2 a (by rwa [List.head?_reverse] at ha))]
  exact List.reverse_reverse l

theorem stripChars_idem (l : List Char) : stripChars (stripChars l) = stripChars l :=
  stripChars_eq_self _ (stripChars_head? l) (stripChars_getLast? l)

theorem pyStrip_idem (s : String) : pyStrip (pyStrip s) = pyStrip s :=
  congrArg String.mk (stripChars_idem s.data)

theorem pyLines_mem {L : List String} {m : String} (h : m ∈ pyLines L) :
    m ≠ "" ∧ pyStrip m = m := by
  unfold pyLines at h
  have h1 := List.mem_filter.mp h
  obtain ⟨ln, _, hm⟩ := List.mem_map.mp h1.1
  constructor
  · intro he
    rw [he] at h1
    exact absurd h1.2 (by decide)
  · rw [← hm]; exact pyStrip_idem ln

/-! ### Characterization of the semantic-version matcher -/

theorem expectChar_eq_some {c : Char} {l r : List Char} :
    expectChar c l = some r ↔ l = c :: r := by
  cases l with
  | nil => simp [expectChar]
  | cons x rest =>
    simp only [expectChar]
    by_cases hx : x = c
    · subst hx; simp
    · rw [if_neg hx]
      constructor
      · intro h; exact Option.noConfusion h
      · intro h
        injection h with h1 _
        exact absurd h1 hx

theorem reEnd_iff (r : List Char) : reEnd r = true ↔ r = [] ∨ r = ['\n'] := by
  unfold reEnd
  rw [Bool.or_eq_true, List.isEmpty_iff, beq_iff_eq]

theorem reDigits1_eq_some {l r : List Char} (h : reDigits1 l = some r) :
    ∃ d, d ≠ [] ∧ (∀ ch ∈ d, isReDigit ch = true) ∧ l = d ++ r := by
  cases l with
  | nil => exact Option.noConfusion h
  | cons c rest =>
    simp only [reDigits1] at h
    by_cases hc : isReDigit c = true
    · rw [if_pos hc] at h
      injection h with h
      refine ⟨c :: rest.takeWhile isReDigit, by simp, ?_, ?_⟩
      · intro ch hch
        rcases List.mem_cons.mp hch with rfl | hm
        · exact hc
        · exact List.mem_takeWhile_imp hm
      · rw [← h, List.cons_append, List.takeWhile_append_dropWhile]
    · rw [if_neg hc] at h
      exact Option.noConfusion h

theorem dropWhile_append_of_all {α : Type} (p : α → Bool) (r : List α) :
    ∀ (d : List α), (∀ a ∈ d, p a = true) → (d ++ r).dropWhile p = r.dropWhile p := by
  intro d
  induction d with
  | nil => intro _; rfl
  | cons x xs ih =>
    intro hd
    rw [List.cons_append, List.dropWhile_cons, if_pos (hd x (by simp))]
    exact ih (fun a ha => hd a (by simp [ha]))

theorem reDigits1_append {d : List Char} (r : List Char) (hd : d ≠ [])
    (hdig : ∀ ch ∈ d, isReDigit ch = true)
    (hr : ∀ a, r.head? = some a → isReDigit a = false) :
    reDigits1 (d ++ r) = some r := by
  cases d with
  | nil => exact absurd rfl hd
  | cons c cs =>
    rw [List.cons_append]
    simp only [reDigits1]
    rw [if_pos (hdig c (by simp))]
    rw [dropWhile_append_of_all isReDigit r cs (fun a ha => hdig a (by simp [ha]))]
    rw [dropWhile_eq_self_of_head? _ _ hr]

theorem semverCore_of_shape (x y z t : List Char) (hx : x ≠ []) (hy : y ≠ []) (hz : z ≠ [])
    (hdx : ∀ ch ∈ x, isReDigit ch = true) (hdy : ∀ ch ∈ y, isReDigit ch = true)
    (hdz : ∀ ch ∈ z, isReDigit ch = true) (ht : t = [] ∨ t = ['\n']) :
    semverCore ('v' :: (x ++ '.' :: (y ++ '.' :: (z ++ t)))) = true := by
  have hdot : ∀ (w : List Char) (a : Char), ('.' :: w).head? = some a → isReDigit a = false := by
    intro w a ha
    simp only [List.head?_cons] at ha
    injection ha with ha
    rw [← ha]
    decide
  have ht' : ∀ a, t.head? = some a → isReDigit a = false := by
    rcases ht with rfl | rfl
    · intro a ha; exact Option.noConfusion ha
    · intro a ha
      simp only [List.head?_cons] at ha
      injection ha with ha
      rw [← ha]
      decide
  have hre1 : reDigits1 (x ++ '.' :: (y ++ '.' :: (z ++ t))) =
      some ('.' :: (y ++ '.' :: (z ++ t))) := reDigits1_append _ hx hdx (hdot _)
  have hre2 : reDigits1 (y ++ '.' :: (z ++ t)) = some ('.' :: (z ++ t)) :=
    reDigits1_append _ hy hdy (hdot _)
  have hre3 : reDigits1 (z ++ t) = some t := reDigits1_append _ hz hdz ht'
  unfold semverCore
  rw [show expectChar 'v' ('v' :: (x ++ '.' :: (y ++ '.' :: (z ++ t)))) =
    some (x ++ '.' :: (y ++ '.' :: (z ++ t))) from by simp [expectChar]]
  rw [Option.some_bind, hre1, Option.some_bind]
  rw [show expectChar '.' ('.' :: (y ++ '.' :: (z ++ t))) = some (y ++ '.' :: (z ++ t)) from
    by simp [expectChar]]
  rw [Option.some_bind, hre2, Option.some_bind]
  rw [show expectChar '.' ('.' :: (z ++ t)) = some (z ++ t) from by simp [expectChar]]
  rw [Option.some_bind, hre3]
  rcases ht with rfl | rfl
  · rfl
  · rfl

theorem semverCore_iff (l : List Char) :
    semverCore l = true ↔
      SemverCharsD isReDigit l ∨ ∃ m, SemverCharsD isReDigit m ∧ l = m ++ ['\n'] := by
  constructor
  · intro h
    unfold semverCore at h
    cases hs : (((((expectChar 'v' l).bind reDigits1).bind (expectChar '.')).bind
        reDigits1).bind (expectChar '.')).bind reDigits1 with
    | none => rw [hs] at h; exact Bool.noConfusion h
    | some r =>
      rw [hs] at h
      obtain ⟨r5, hs5, hr⟩ := Option.bind_eq_some.mp hs
      obtain ⟨r4, hs4, h5⟩ := Option.bind_eq_some.mp hs5
      obtain ⟨r3, hs3, h4⟩ := Option.bind_eq_some.mp hs4
      obtain ⟨r2, hs2, h3⟩ := Option.bind_eq_some.mp hs3
      obtain ⟨r1, hs1, h2⟩ := Option.bind_eq_some.mp hs2
      have hl : l = 'v' :: r1 := expectChar_eq_some.mp hs1
      obtain ⟨d1, hd1ne, hd1dig, hr1⟩ := reDigits1_eq_some h2
      have hr2 : r2 = '.' :: r3 := expectChar_eq_some.mp h3
      obtain ⟨d2, hd2ne, hd2dig, hr3⟩ := reDigits1_eq_some h4
      have hr4 : r4 = '.' :: r5 := expectChar_eq_some.mp h5
      obtain ⟨d3, hd3ne, hd3dig, hr5⟩ := reDigits1_eq_some hr
      rcases (reEnd_iff r).mp h with rfl | rfl
      · left
        refine ⟨d1, d2, d3, hd1ne, hd2ne, hd3ne, hd1dig, hd2dig, hd3dig, ?_⟩
        rw [hl, hr1, hr2, hr3, hr4, hr5]
        simp
      · right
        refine ⟨'v' :: (d1 ++ '.' :: (d2 ++ '.' :: d3)),
          ⟨d1, d2, d3, hd1ne, hd2ne, hd3ne, hd1dig, hd2dig, hd3dig, rfl⟩, ?_⟩
        rw [hl, hr1, hr2, hr3, hr4, hr5]
        simp [List.append_assoc]
  · rintro (⟨x, y, z, hx, hy, hz, dx, dy, dz, rfl⟩ |
      ⟨m, ⟨x, y, z, hx, hy, hz, dx, dy, dz, rfl⟩, rfl⟩)
    · have := semverCore_of_shape x y z [] hx hy hz dx dy dz (Or.inl rfl)
      simpa using this
    · have := semverCore_of_shape x y z ['\n'] hx hy hz dx dy dz (Or.inr rfl)
      have heq : 'v' :: (x ++ '.' :: (y ++ '.' :: (z ++ ['\n']))) =
          ('v' :: (x ++ '.' :: (y ++ '.' :: z))) ++ ['\n'] := by
        simp [List.append_assoc]
      rw [heq] at this
      exact this

theorem string_mk_data (s : String) : String.mk s.data = s := rfl

theorem shape_of_chars {d : Char → Bool} {l : List Char} (h : SemverCharsD d l) :
    SemverShapeD d (String.mk l) := by
  obtain ⟨x, y, z, hx, hy, hz, dx, dy, dz, rfl⟩ := h
  refine ⟨String.mk x, String.mk y, String.mk z, ?_, ?_, ?_, dx, dy, dz, ?_⟩
  · intro h; exact hx (congrArg String.data h)
  · intro h; exact hy (congrArg String.data h)
  · intro h; exact hz (congrArg String.data h)
  · apply String.ext
    simp [String.data_append]

theorem chars_of_shape {d : Char → Bool} {s : String} (h : SemverShapeD d s) :
    SemverCharsD d s.data := by
  obtain ⟨x, y, z, hx, hy, hz, dx, dy, dz, rfl⟩ := h
  refine ⟨x.data, y.data, z.data, ?_, ?_, ?_, dx, dy, dz, ?_⟩
  · intro h; exact hx (by rw [← string_mk_data x, h])
  · intro h; exact hy (by rw [← string_mk_data y, h])
  · intro h; exact hz (by rw [← string_mk_data z, h])
  · simp [String.data_append]

theorem semverMatch_iff_shape (s : String) :
    semverMatch s = true ↔
      SemverShapeD isReDigit s ∨ ∃ t, SemverShapeD isReDigit t ∧ s = t ++ "\n" := by
  rw [show semverMatch s = semverCore s.data from rfl, semverCore_iff]
  constructor
  · rintro (hc | ⟨m, hm, hdata⟩)
    · left
      have := shape_of_chars hc
      rwa [string_mk_data] at this
    · right
      refine ⟨String.mk m, shape_of_chars hm, ?_⟩
      apply String.ext
      rw [String.data_append, hdata]
  · rintro (hc | ⟨t, ht, rfl⟩)
    · exact Or.inl (chars_of_shape hc)
    · refine Or.inr ⟨t.data, chars_of_shape ht, ?_⟩
      rw [String.data_append]

theorem chars_getLast_digit {d : Char → Bool} {l : List Char} (h : SemverCharsD d l) :
    ∀ ch, l.getLast? = some ch → d ch = true := by
  obtain ⟨x, y, z, hx, hy, hz, dx, dy, dz, rfl⟩ := h
  intro ch hch
  have hsplit : 'v' :: (x ++ '.' :: (y ++ '.' :: z)) =
      ('v' :: (x ++ '.' :: (y ++ ['.']))) ++ z := by
    simp [List.append_assoc]
  rw [hsplit, List.getLast?_append] at hch
  cases hzl : z.getLast? with
  | none => exact absurd (List.getLast?_eq_none_iff.mp hzl) hz
  | some a =>
    rw [hzl] at hch
    have : ch = a := by simpa [Option.or] using hch.symm
    subst this
    exact dz ch (List.mem_of_mem_getLast? hzl)

theorem shape_getLast_digit {d : Char → Bool} {s : String} (h : SemverShapeD d s) :
    ∀ ch, s.data.getLast? = some ch → d ch = true :=
  chars_getLast_digit (chars_of_shape h)

theorem gitLogRaw_eq_intervalRaw (c : Collab) (a : Option String) (b : String) :
    gitLogRaw c a b = intervalRaw c a b := by
  unfold gitLogRaw intervalRaw intervalIdx
  rw [filterMap_getElem_range']

/-! ### Claim theorems -/

/-- C4: when the (filtered) tag list is empty, `build_changelog` returns the
verbatim placeholder `"No tags found.\n"` as a normal return value. -/
theorem build_changelog_empty_tags (c : Collab) (today : String)
    (h : git_tag_list_sorted_desc c = []) :
    build_changelog c today = "No tags found.\n" := by
  simp [build_changelog, h]

theorem build_changelog_empty_tags_witness :
    git_tag_list_sorted_desc collabEmpty = [] ∧
      build_changelog collabEmpty "2024-06-01" = "No tags found.\n" :=
  ⟨by decide, build_changelog_empty_tags collabEmpty "2024-06-01" (by decide)⟩

/-- C3: the spec's worked example.  For tags `[v2.0.0, v1.0.0]` (descending)
with `commit_messages_between(None, v1.0.0) = ["init"]` and
`commit_messages_between(v1.0.0, v2.0.0) = ["feature A", "fix B"]`, the
output is exactly the two sections with the resolved tag dates and a single
trailing newline. -/
theorem build_changelog_worked_example :
    build_changelog c3collab "2099-12-31" =
      "## v2.0.0 — 2024-02-06\n- feature A\n- fix B\n\n## v1.0.0 — 2024-01-05\n- init\n" := by
  rfl

/-- C5 counterexample: with identical collaborator responses but different
current dates (the run time), the outputs differ, because a missing tag date
falls back to the current date.  So the output is not independent of when the
invocation runs. -/
theorem build_changelog_time_dependent :
    build_changelog collabNoDate "2024-01-01" ≠ build_changelog collabNoDate "2024-01-02" := by
  decide

/-- C5 amended: two invocations with identical collaborator responses produce
byte-identical output provided every listed tag has a non-empty reported
creation date (so the current-date fallback is never taken); the run times
`t1`, `t2` may differ. -/
theorem build_changelog_deterministic (c : Collab) (t1 t2 : String)
    (h : ∀ tag ∈ git_tag_list_sorted_desc c, tag_date c tag ≠ "") :
    build_changelog c t1 = build_changelog c t2 := by
  unfold build_changelog
  by_cases he : git_tag_list_sorted_desc c = []
  · rw [if_pos he, if_pos he]
  · rw [if_neg he, if_neg he]
    have hsec : changelogSections c t1 = changelogSections c t2 := by
      simp only [changelogSections]
      apply List.map_congr_left
      intro idx hidx
      have hlen : idx < (git_tag_list_sorted_desc c).length := List.mem_range.mp hidx
      have htag : (git_tag_list_sorted_desc c).getD idx "" ∈ git_tag_list_sorted_desc c := by
        rw [List.getD_eq_getElem _ _ hlen]
        exact List.getElem_mem hlen
      simp only [buildSection, sectionLines]
      rw [if_neg (h _ htag), if_neg (h _ htag)]
    rw [hsec]

theorem build_changelog_deterministic_witness :
    (∀ tag ∈ git_tag_list_sorted_desc c3collab, tag_date c3collab tag ≠ "") ∧
      build_changelog c3collab "2024-06-01" = build_changelog c3collab "2099-12-31" :=
  ⟨by decide, build_changelog_deterministic c3collab "2024-06-01" "2099-12-31" (by decide)⟩

/-- C6: when the collaborator reports an empty creation date for the tag of a
section, the rendered header uses `today` (the current UTC date at call time,
`datetime.utcnow().strftime("%Y-%m-%d")`) in place of the date; the section
renders normally, no error. -/
theorem missing_date_fallback (c : Collab) (today : String) (tags : List String) (idx : Nat)
    (h : tag_date c (tags.getD idx "") = "") :
    buildSection c today tags idx =
      String.intercalate "\n"
        (("## " ++ tags.getD idx "" ++ " — " ++ today) ::
          (commits_between c tags[idx + 1]? (tags.getD idx "")).map (fun m => "- " ++ m)) := by
  simp only [buildSection, sectionLines]
  rw [h, if_pos rfl]

theorem missing_date_fallback_witness :
    tag_date collabNoDate "v1.0.0" = "" ∧
      buildSection collabNoDate "2024-06-01" ["v1.0.0"] 0 = "## v1.0.0 — 2024-06-01\n- init" := by
  refine ⟨by decide, ?_⟩
  have h := missing_date_fallback collabNoDate "2024-06-01" ["v1.0.0"] 0 (by decide)
  exact h.trans (by decide)

/-- C7 counterexample: the Unicode-digit tag `v١.٢.٣` is not of the ASCII
shape `v<major>.<minor>.<patch>` (non-negative integers), yet `SEMVER_TAG_RE`
accepts it (Python `\d` matches any Unicode decimal digit), so a
misconfigured collaborator's raw list carries it through the re-filter and it
heads a section of the generated changelog. -/
theorem unicode_tag_becomes_header :
    ¬SemverShapeCore "v١.٢.٣" ∧
      "v١.٢.٣" ∈ git_tag_list_sorted_desc collabUnicode ∧
      build_changelog collabUnicode "2099-12-31" = "## v١.٢.٣ — 2024-04-04\n- init\n" := by
  refine ⟨?_, by decide, rfl⟩
  intro h
  exact absurd (shape_getLast_digit h '٣' (by decide)) (by decide)

/-- C7 amended: a tag that does not match `SEMVER_TAG_RE` — whose `\d`
accepts any Unicode decimal digit, so this is the regex's accept set, not the
ASCII `v<major>.<minor>.<patch>` shape — is never an element of the filtered
tag list, so no section (each section's tag is `tags.getD idx ""` for an
index below the list length) is headed by it, even when the raw collaborator
tag lines contain it. -/
theorem non_semver_never_in_changelog (c : Collab) (t : String)
    (h : semverMatch t = false) :
    t ∉ git_tag_list_sorted_desc c ∧
      ∀ idx < (git_tag_list_sorted_desc c).length,
        (git_tag_list_sorted_desc c).getD idx "" ≠ t := by
  have hnot : t ∉ git_tag_list_sorted_desc c := by
    intro hmem
    have h2 := (List.mem_filter.mp hmem).2
    rw [h] at h2
    exact Bool.noConfusion h2
  refine ⟨hnot, ?_⟩
  intro idx hidx heq
  apply hnot
  rw [← heq, List.getD_eq_getElem _ _ hidx]
  exact List.getElem_mem hidx

theorem non_semver_never_in_changelog_witness :
    semverMatch "release-2" = false ∧ "release-2" ∉ git_tag_list_sorted_desc collabJunk :=
  ⟨by decide, (non_semver_never_in_changelog collabJunk "release-2" (by decide)).1⟩

/-- C9: every message delivered by `commits_between` is non-empty and already
stripped of surrounding whitespace (blank log lines are dropped), so no
bullet `- <message>` has an empty message; and a section whose interval has
no non-blank messages is exactly its header line. -/
theorem messages_nonblank (c : Collab) (today : String) (tags : List String) (idx : Nat) :
    (∀ m ∈ commits_between c tags[idx + 1]? (tags.getD idx ""), m ≠ "" ∧ pyStrip m = m) ∧
      (commits_between c tags[idx + 1]? (tags.getD idx "") = [] →
        buildSection c today tags idx =
          "## " ++ tags.getD idx "" ++ " — " ++
            (if tag_date c (tags.getD idx "") = "" then today
             else tag_date c (tags.getD idx ""))) := by
  constructor
  · intro m hm
    exact pyLines_mem hm
  · intro he
    simp only [buildSection, sectionLines, he]
    simp [intercalate_singleton]

theorem messages_nonblank_witness :
    ("Fix B" ≠ "" ∧ pyStrip "Fix B" = "Fix B") ∧
      buildSection collabAllBlank "2024-06-01" ["v1.0.0"] 0 = "## v1.0.0 — 2024-03-03" := by
  constructor
  · exact (messages_nonblank collabBlankMsg "2024-06-01" ["v1.0.0"] 0).1 "Fix B" (by decide)
  · have h := (messages_nonblank collabAllBlank "2024-06-01" ["v1.0.0"] 0).2 (by decide)
    exact h.trans (by decide)

/-- C10 counterexample: two strings outside the claimed pattern
`v<major>.<minor>.<patch>` (non-negative integers, ASCII) that
`validate_version` nevertheless accepts: `"v1.2.3\n"` has an extra trailing
character but Python's `$` also matches just before a trailing newline, and
`"v١.٢.٣"` is written with Arabic-Indic digits, which Python's `\d` (Unicode
decimal digits) matches. -/
theorem validate_version_nonpattern_accepted :
    (¬SemverShapeCore "v1.2.3\n" ∧ validate_version "v1.2.3\n" = Except.ok ()) ∧
      (¬SemverShapeCore "v١.٢.٣" ∧ validate_version "v١.٢.٣" = Except.ok ()) := by
  refine ⟨⟨?_, rfl⟩, ?_, rfl⟩
  · intro h
    exact absurd (shape_getLast_digit h '\n' (by decide)) (by decide)
  · intro h
    exact absurd (shape_getLast_digit h '٣' (by decide)) (by decide)

/-- C10 amended: `validate_version` returns normally exactly for the strings
of shape `v<digits>.<digits>.<digits>` whose components are non-empty runs of
Unicode decimal digits (Python `\d`), optionally followed by one trailing
newline (Python `$` semantics), and otherwise raises `SystemExit` with the
message `ERROR: Version must match syntax v1.2.3`. -/
theorem validate_version_characterization (s : String) :
    (validate_version s = Except.ok () ↔
      SemverShapeRe s ∨ ∃ t, SemverShapeRe t ∧ s = t ++ "\n") ∧
      (validate_version s = Except.ok () ∨
        validate_version s = Except.error "ERROR: Version must match syntax v1.2.3") := by
  unfold validate_version
  by_cases h : semverMatch s = true
  · rw [if_pos h]
    constructor
    · constructor
      · intro _; exact (semverMatch_iff_shape s).mp h
      · intro _; rfl
    · exact Or.inl rfl
  · rw [if_neg h]
    constructor
    · constructor
      · intro he; exact Except.noConfusion he
      · intro hsh; exact absurd ((semverMatch_iff_shape s).mpr hsh) h
    · exact Or.inr rfl

/-- C1: for each index `i` into the filtered descending tag list, the `i`-th
section of `build_changelog` is built from the messages of the interval whose
previous tag is the one at position `i + 1` (and `none` exactly when `i` is
the last index), where the interval collects, newest first, the non-merge
commit messages at history indices strictly after the previous tag's commit
(exclusive) up to and including the current tag's commit — the full history
up to the current tag when there is no previous tag. -/
theorem build_changelog_section_pairing (c : Collab) (today : String) (i : Nat)
    (h : i < (git_tag_list_sorted_desc c).length) :
    (changelogSections c today)[i]? =
      some (String.intercalate "\n"
        (("## " ++ (git_tag_list_sorted_desc c).getD i "" ++ " — " ++
            (if tag_date c ((git_tag_list_sorted_desc c).getD i "") = "" then today
             else tag_date c ((git_tag_list_sorted_desc c).getD i ""))) ::
          (pyLines (intervalRaw c (git_tag_list_sorted_desc c)[i + 1]?
              ((git_tag_list_sorted_desc c).getD i ""))).map (fun m => "- " ++ m))) ∧
      ((git_tag_list_sorted_desc c)[i + 1]? = none ↔
        i + 1 = (git_tag_list_sorted_desc c).length) ∧
      (∀ j, j ∈ intervalIdx c (git_tag_list_sorted_desc c)[i + 1]?
          ((git_tag_list_sorted_desc c).getD i "") ↔
        prevBound c (git_tag_list_sorted_desc c)[i + 1]? ≤ j ∧
          j ≤ c.pos ((git_tag_list_sorted_desc c).getD i "")) := by
  refine ⟨?_, ?_, ?_⟩
  · simp only [changelogSections]
    rw [List.getElem?_map, List.getElem?_range h]
    simp only [Option.map_some']
    simp only [buildSection, sectionLines, commits_between, gitLogRaw_eq_intervalRaw]
  · constructor
    · intro hn
      have := List.getElem?_eq_none_iff.mp hn
      omega
    · intro he
      exact List.getElem?_eq_none_iff.mpr (by omega)
  · intro j
    unfold intervalIdx
    rw [List.mem_range'_1]
    omega

theorem build_changelog_section_pairing_witness :
    0 < (git_tag_list_sorted_desc c3collab).length ∧
      (changelogSections c3collab "2099-12-31")[0]? =
        some "## v2.0.0 — 2024-02-06\n- feature A\n- fix B" := by
  refine ⟨by decide, ?_⟩
  have h := (build_changelog_section_pairing c3collab "2099-12-31" 0 (by decide)).1
  exact h.trans (by decide)

/-- C2: for a non-empty tag list, the document equals the lines of all
sections — each a `## <tag> — <date>` header line followed by one
`- <message>` line per message in collaborator order — with exactly one empty
line between consecutive sections, joined by newlines, plus exactly one final
newline. -/
theorem build_changelog_rendering (c : Collab) (today : String)
    (h : git_tag_list_sorted_desc c ≠ []) :
    build_changelog c today =
      String.intercalate "\n"
        (List.intercalate [""]
          ((List.range (git_tag_list_sorted_desc c).length).map
            (sectionLines c today (git_tag_list_sorted_desc c)))) ++ "\n" := by
  unfold build_changelog
  rw [if_neg h]
  congr 1
  simp only [changelogSections, buildSection]
  rw [show (List.range (git_tag_list_sorted_desc c).length).map
      (fun idx => String.intercalate "\n" (sectionLines c today (git_tag_list_sorted_desc c) idx)) =
      ((List.range (git_tag_list_sorted_desc c).length).map
        (sectionLines c today (git_tag_list_sorted_desc c))).map (String.intercalate "\n") from by
    rw [List.map_map]; rfl]
  apply intercalate_blank_join
  intro l hl
  obtain ⟨idx, _, rfl⟩ := List.mem_map.mp hl
  simp [sectionLines]

theorem build_changelog_rendering_witness :
    git_tag_list_sorted_desc c3collab ≠ [] ∧
      build_changelog c3collab "2099-12-31" =
        String.intercalate "\n"
          (List.intercalate [""]
            ((List.range (git_tag_list_sorted_desc c3collab).length).map
              (sectionLines c3collab "2099-12-31" (git_tag_list_sorted_desc c3collab)))) ++ "\n" :=
  ⟨by decide, build_changelog_rendering c3collab "2099-12-31" (by decide)⟩

/-- C8: for two adjacent intervals — `(pp, prev]` and `(prev, cur]` with
positions in descending-tag order — the merged interval's message list is
exactly the newer section's messages followed by the older section's messages
(so their union is the merged interval's message set), and the two index
intervals are disjoint, so no commit falls in both sections. -/
theorem commits_between_partition (c : Collab) (pp : Option String) (prev cur : String)
    (h1 : prevBound c pp ≤ c.pos prev + 1) (h2 : c.pos prev ≤ c.pos cur) :
    commits_between c pp cur =
        commits_between c (some prev) cur ++ commits_between c pp prev ∧
      (∀ m, m ∈ commits_between c pp cur ↔
        m ∈ commits_between c (some prev) cur ∨ m ∈ commits_between c pp prev) ∧
      ∀ j, ¬(j ∈ intervalIdx c pp prev ∧ j ∈ intervalIdx c (some prev) cur) := by
  have key : commits_between c pp cur =
      commits_between c (some prev) cur ++ commits_between c pp prev := by
    unfold commits_between gitLogRaw
    rw [show prevBound c (some prev) = c.pos prev + 1 from rfl]
    rw [drop_take_split c.history (prevBound c pp) (c.pos prev + 1) (c.pos cur + 1) h1
      (by omega)]
    rw [List.filter_append, List.reverse_append, List.map_append, pyLines_append]
  refine ⟨key, fun m => by rw [key]; exact List.mem_append, fun j hj => ?_⟩
  obtain ⟨hj1, hj2⟩ := hj
  unfold intervalIdx at hj1 hj2
  rw [List.mem_range'_1] at hj1 hj2
  rw [show prevBound c (some prev) = c.pos prev + 1 from rfl] at hj2
  omega

theorem commits_between_partition_witness :
    (prevBound c3collab none ≤ c3collab.pos "v1.0.0" + 1 ∧
      c3collab.pos "v1.0.0" ≤ c3collab.pos "v2.0.0") ∧
      commits_between c3collab none "v2.0.0" =
        commits_between c3collab (some "v1.0.0") "v2.0.0" ++
          commits_between c3collab none "v1.0.0" := by
  refine ⟨⟨by decide, by decide⟩, ?_⟩
  exact (commits_between_partition c3collab none "v1.0.0" "v2.0.0" (by decide) (by decide)).1
